import Mathlib

set_option maxRecDepth 8192

/-!
# Verification of the cwe_checker IR core and its stack-pointer alignment
# substitution pass

This file gives a shallow embedding, in Lean 4, of the intermediate
representation (IR) data model of the `cwe_checker` binary-analysis tool
(`term.rs`, `def.rs`) and of the legacy stack-pointer alignment substitution
pass (`stack_pointer_alignment_substitution/legacy.rs`), together with
theorems settling the specification claims about them.

Modelling conventions:
* In-place mutation in Rust is rendered as functional state passing.
* Rust panics (failed `unwrap()` calls, out-of-bounds indexing) are rendered
  as `Option`: a result of `none` models a process-level panic.
* The Rust `i64` arithmetic is rendered as mathematical integers wrapped into
  the signed 64-bit range (`wrap64`, matching release-mode wrapping
  semantics); `i64` bitwise AND is `i64And`.
* The `apint::ApInt` bit-vector type of the external `apint` crate is
  modelled as `Bitvector` (a byte width together with raw bits); its
  conversion `try_to_i64` follows the reading in the specification of constants
  as signed integers and fails exactly when the signed value does not fit
  in a signed 64-bit integer.
-/

namespace IR

/-- The signed 64-bit range wrap used to model Rust `i64` addition and
subtraction (release-mode wrapping semantics). -/
def wrap64 (i : Int) : Int := (i + 2 ^ 63) % 2 ^ 64 - 2 ^ 63

/-- Kernel-computable bitwise AND on natural numbers, reading off `fuel`
low-order bits. -/
def natAndAux : Nat → Nat → Nat → Nat
  | 0, _, _ => 0
  | fuel + 1, a, b =>
      (if a % 2 = 1 ∧ b % 2 = 1 then 1 else 0) + 2 * natAndAux fuel (a / 2) (b / 2)

/-- Bitwise AND of two signed 64-bit integers (twos complement), modelling
the Rust operator `&` on `i64`. -/
def i64And (a b : Int) : Int :=
  let ua := (a % (2 ^ 64 : Int)).toNat
  let ub := (b % (2 ^ 64 : Int)).toNat
  let r := natAndAux 64 ua ub
  if r < 2 ^ 63 then (r : Int) else (r : Int) - 2 ^ 64

/-- A term identifier: an ID string (required to be unique) and an address
(`term.rs`, `Tid`). -/
structure Tid where
  id : String
  address : String
deriving DecidableEq, Repr

/-- Modelled from the spec: the stack-pointer `Variable` descriptor is a
register name together with its width (`variable.rs` is not among the given
sources; §6 of the spec describes it as "name + bit-width"). `size` is in
bytes. -/
structure Variable where
  name : String
  size : Nat
deriving DecidableEq, Repr

/-- Modelled from the spec: a literal bit-vector constant (the `Bitvector`
alias for `apint::ApInt` used by the sources; the crate is external to the
repository). `size` is the byte width (`bytesize()`), `value` the raw bits,
canonically below `2 ^ (8 * size)`. -/
structure Bitvector where
  size : Nat
  value : Nat
deriving DecidableEq, Repr

/-- The signed (twos complement) integer value of a bit vector at its own
width. -/
def Bitvector.to_int (bv : Bitvector) : Int :=
  if bv.value < 2 ^ (8 * bv.size - 1) then (bv.value : Int)
  else (bv.value : Int) - 2 ^ (8 * bv.size)

/-- Modelled from the spec: `ApInt::try_to_i64`, the lossless conversion of a
constant to a signed 64-bit integer ("the negated bitmask (interpreted as a
signed integer)", "signed 64-bit arithmetic"). It succeeds exactly when the
signed value fits in the signed 64-bit range, which always holds for widths
of at most 64 bits; a `none` result makes the enclosing `unwrap()` panic. -/
def Bitvector.try_to_i64 (bv : Bitvector) : Option Int :=
  if 8 * bv.size ≤ 64 then some bv.to_int
  else if -(2 ^ 63) ≤ bv.to_int ∧ bv.to_int < 2 ^ 63 then some bv.to_int
  else none

/-- Rust `ApInt::into_negate`: twos-complement negation at the same width. -/
def Bitvector.into_negate (bv : Bitvector) : Bitvector :=
  ⟨bv.size, (2 ^ (8 * bv.size) - bv.value % 2 ^ (8 * bv.size)) % 2 ^ (8 * bv.size)⟩

/-- Rust `ApInt::from_i64`: the 64-bit (8-byte) bit vector holding the twos-complement representation of `i`. -/
def Bitvector.from_i64 (i : Int) : Bitvector :=
  ⟨8, (i % (2 ^ 64 : Int)).toNat⟩

/-- Rust `ApInt::into_resize_unsigned`: zero-extend or truncate to the given byte
width. -/
def Bitvector.into_resize_unsigned (bv : Bitvector) (newSize : Nat) : Bitvector :=
  ⟨newSize, bv.value % 2 ^ (8 * newSize)⟩

/-- Binary operation kinds of IR expressions (subset of the closed
`BinOpType` variant set actually distinguished by the given sources). -/
inductive BinOpType where
  | Piece
  | IntEqual
  | IntAdd
  | IntSub
  | IntAnd
  | IntOr
  | IntXOr
  | IntMult
deriving DecidableEq, Repr

/-- Unary operation kinds of IR expressions. -/
inductive UnOpType where
  | IntNegate
  | Int2Comp
  | BoolNegate
deriving DecidableEq, Repr

/-- Cast operation kinds of IR expressions. -/
inductive CastOpType where
  | IntZExt
  | IntSExt
  | Trunc
deriving DecidableEq, Repr

/-- Modelled from the spec: the IR expression type (`expression.rs` is not
among the given sources; the variants below are the ones the given sources
pattern-match on: variable reads, constants, binary and unary operations,
casts with a result byte size, unknown placeholders and subpieces). -/
inductive Expression where
  | Var : Variable → Expression
  | Const : Bitvector → Expression
  | BinOp : BinOpType → Expression → Expression → Expression
  | UnOp : UnOpType → Expression → Expression
  | Cast : CastOpType → Nat → Expression → Expression
  | Unknown : String → Nat → Expression
  | Subpiece : Nat → Nat → Expression → Expression
deriving DecidableEq, Repr

/-- A side-effectful IR operation (`term.rs` / `def.rs`, `Def`): a memory
load, a memory store, or a register assignment. -/
inductive Def where
  | Load : Variable → Expression → Def
  | Store : Expression → Expression → Def
  | Assign : Variable → Expression → Def
deriving DecidableEq, Repr

/-- A control-flow IR operation (`term.rs`, `Jmp`), the closed variant
set. -/
inductive Jmp where
  | Branch : Tid → Jmp
  | BranchInd : Expression → Jmp
  | CBranch : Tid → Expression → Jmp
  | Call : Tid → Option Tid → Jmp
  | CallInd : Expression → Option Tid → Jmp
  | Return : Expression → Jmp
  | CallOther : String → Option Tid → Jmp
deriving DecidableEq, Repr

/-- A payload together with its term identifier (`term.rs`, `Term<T>`). -/
structure Term (α : Type) where
  tid : Tid
  term : α
deriving DecidableEq, Repr

/-- A basic block: ordered `Def`s followed by ordered `Jmp`s (`term.rs`,
`Blk`). -/
structure Blk where
  defs : List (Term Def)
  jmps : List (Term Jmp)
deriving DecidableEq, Repr

/-- A subroutine: a name and its basic blocks; the first block is the entry
point (`term.rs`, `Sub`). -/
structure Sub where
  name : String
  blocks : List (Term Blk)
deriving DecidableEq, Repr

/-- A calling-convention slot (`term.rs`, `Arg`). -/
inductive Arg where
  | Register : Variable → Arg
  | Stack : Int → Nat → Arg
deriving DecidableEq, Repr

/-- An extern symbol (`term.rs`, `ExternSymbol`). -/
structure ExternSymbol where
  tid : Tid
  name : String
  calling_convention : Option String
  parameters : List Arg
  return_values : List Arg
  no_return : Bool
deriving DecidableEq, Repr

/-- The top-level program container (`term.rs`, `Program`). -/
structure Program where
  subs : List (Term Sub)
  extern_symbols : List ExternSymbol
  entry_points : List Tid
deriving DecidableEq, Repr

/-- Severity of a diagnostic record (`utils/log.rs` is external to the given
sources; the pass only ever constructs informational messages). -/
inductive LogLevel where
  | Info
  | Error
deriving DecidableEq, Repr

/-- Modelled from the spec: a diagnostic record carrying free text,
informational severity and an optional source `Tid` for attribution. -/
structure LogMessage where
  text : String
  level : LogLevel
  location : Option Tid
deriving DecidableEq, Repr

/-- Rust `LogMessage::new_info(text).location(tid)`. -/
def mkInfo (text : String) (tid : Tid) : LogMessage :=
  ⟨text, LogLevel.Info, some tid⟩

/-- Whether the character list `pat` occurs at the start of `s`. -/
def startsWithChars : List Char → List Char → Bool
  | [], _ => true
  | _ :: _, [] => false
  | a :: as, b :: bs => a == b && startsWithChars as bs

/-- Whether the character list `pat` occurs contiguously anywhere in `s`. -/
def occursInChars : List Char → List Char → Bool
  | pat, [] => startsWithChars pat []
  | pat, b :: bs => startsWithChars pat (b :: bs) || occursInChars pat bs

/-- Rust `str::contains` for plain substring patterns, as used by the pass
on diagnostic texts. -/
def hasSubstring (pat s : String) : Bool :=
  occursInChars pat.toList s.toList

/-- The substring scanned for by the abort check of the pass. -/
def unsubstitutableText : String := "Unsubstitutable Operation on SP"

/-- Rust `Term::<Def>::check_for_zero_extension` (`def.rs`): returns the own `Tid` of the term iff it is an `Assign` of a zero-extension cast of a bare variable
read, with the assigned variable named `output_name` and the source
variable of the cast named `output_sub_register`. -/
def Term.check_for_zero_extension (self : Term Def) (output_name : String)
    (output_sub_register : String) : Option Tid :=
  match self.term with
  | Def.Assign var (Expression.Cast CastOpType.IntZExt _ arg) =>
      if output_name = var.name then
        match arg with
        | Expression.Var v =>
            if v.name = output_sub_register then some self.tid else none
        | _ => none
      else none
  | _ => none

/-- Modelled from the spec: `Expression::referenced_constants`
(`expression.rs` is not among the given sources; the spec describes it as
returning "every literal bit-vector constant appearing in the
expression(s)", with `none` rather than an empty sequence when there is no
constant). -/
def Expression.referenced_constants : Expression → Option (List Bitvector)
  | Expression.Const c => some [c]
  | Expression.Var _ => none
  | Expression.Unknown _ _ => none
  | Expression.BinOp _ a b =>
      match a.referenced_constants, b.referenced_constants with
      | none, c => c
      | c, none => c
      | some c0, some c1 => some (c0 ++ c1)
  | Expression.UnOp _ a => a.referenced_constants
  | Expression.Cast _ _ a => a.referenced_constants
  | Expression.Subpiece _ _ a => a.referenced_constants

/-- Rust `Def::referenced_constants` (`def.rs`): the constants of the single
expression for `Load`/`Assign`; for `Store`, the constants of the address expression
followed by the constants of the value expression, with `none` only
when both sides are `none`. -/
def Def.referenced_constants : Def → Option (List Bitvector)
  | Def.Load _ expr => expr.referenced_constants
  | Def.Assign _ expr => expr.referenced_constants
  | Def.Store expr0 expr1 =>
      match expr0.referenced_constants, expr1.referenced_constants with
      | none, c => c
      | c, none => c
      | some c0, some c1 => some (c0 ++ c1)

/-- Rust `substitute` (`legacy.rs`): substitutes an AND operation on the stack
pointer by a SUB operation with a constant derived from the journaled
stack-pointer value and the bitmask. Returns the rewritten expression and
the emitted diagnostics; `none` models a panic of one of the two `unwrap()`
calls on `try_to_i64`. -/
def substitute (exp : Expression) (expected_alignment : Int)
    (journaled_sp : Int) (tid : Tid) : Option (Expression × List LogMessage) :=
  match exp with
  | Expression.BinOp op lhs rhs =>
      match lhs, rhs with
      | Expression.Var sp, Expression.Const bitmask =>
          substituteMatched op sp bitmask
            (Expression.BinOp op (Expression.Var sp) (Expression.Const bitmask))
            expected_alignment journaled_sp tid
      | Expression.Const bitmask, Expression.Var sp =>
          substituteMatched op sp bitmask
            (Expression.BinOp op (Expression.Const bitmask) (Expression.Var sp))
            expected_alignment journaled_sp tid
      | _, _ =>
          some (exp,
            [mkInfo
              "Unsubstitutable Operation on SP. Operants are not register and constant."
              tid])
  | _ => some (exp, [mkInfo "Unsubstitutable Operation on SP" tid])
where
  /-- The arm of `substitute` for a `{variable, constant}` operand pair (in
  either order); mirrors lines 30–47 of `legacy.rs`. `orig` is the whole
  original expression, which is returned unchanged when the operation is
  not an `IntAnd`. -/
  substituteMatched (op : BinOpType) (sp : Variable) (bitmask : Bitvector)
      (orig : Expression) (expected_alignment : Int) (journaled_sp : Int)
      (tid : Tid) : Option (Expression × List LogMessage) :=
    match op with
    | BinOpType.IntAnd =>
        match (Bitvector.into_negate bitmask).try_to_i64 with
        | none => none
        | some negated =>
            let log :=
              if negated ≠ expected_alignment then
                [mkInfo "Unexpected alignment" tid]
              else []
            match bitmask.try_to_i64 with
            | none => none
            | some mask =>
                let offset := journaled_sp - i64And journaled_sp mask
                some (Expression.BinOp BinOpType.IntSub (Expression.Var sp)
                  (Expression.Const
                    ((Bitvector.from_i64 offset).into_resize_unsigned bitmask.size)),
                  log)
    | _ => some (orig, [mkInfo "Unsubstitutable Operation on SP" tid])

/-- Rust `journal_sp_value` (`legacy.rs`): updates the journaled stack-pointer
value by the constant of an addition/subtraction on the stack pointer.
Result: `none` models the `unwrap()` panic when the constant does not fit
in a signed 64-bit integer, `some none` models the `Err` outcome (operands
not the stack-pointer register and a constant), `some (some v)` the updated
journaled value. -/
def journal_sp_value (journaled_sp : Int) (is_plus : Bool)
    (rhs lhs : Expression) (sp_register : Variable) : Option (Option Int) :=
  match rhs, lhs with
  | Expression.Var sp, Expression.Const constant =>
      journalMatched journaled_sp is_plus sp constant sp_register
  | Expression.Const constant, Expression.Var sp =>
      journalMatched journaled_sp is_plus sp constant sp_register
  | _, _ => some none
where
  /-- The arm of `journal_sp_value` for a `{variable, constant}` operand
  pair (in either order); mirrors lines 70–81 of `legacy.rs`. -/
  journalMatched (journaled_sp : Int) (is_plus : Bool) (sp : Variable)
      (constant : Bitvector) (sp_register : Variable) : Option (Option Int) :=
    if sp = sp_register then
      match constant.try_to_i64 with
      | none => none
      | some c =>
          some (some (wrap64 (if is_plus then journaled_sp + c else journaled_sp - c)))
    else some none

/-- Rust `get_first_branch_tid` (`legacy.rs`): the target of the first jump of
the block, provided that jump is an unconditional `Jmp::Branch`. -/
def get_first_branch_tid (blk : Term Blk) : Option Tid :=
  match blk.term.jmps.head? with
  | some jmp =>
      match jmp.term with
      | Jmp.Branch jump_to_blk => some jump_to_blk
      | _ => none
  | none => none

/-- Finds the first block whose `Tid` equals `target`, together with its
index (counting from `base`); mirrors the indexed search over `blocks` in
`get_first_blk_with_defs`. -/
def find_target_index : List (Term Blk) → Tid → Nat → Option (Nat × Term Blk)
  | [], _, _ => none
  | b :: bs, target, base =>
      if b.tid = target then some (base, b) else find_target_index bs target (base + 1)

/-- The search loop (label search_loop) of `get_first_blk_with_defs` (`legacy.rs`). The loop
inserts the previously unseen `Tid` of the current block into the visited set on
every iteration, so `blocks.length + 1` iterations always suffice; the
`fuel` parameter makes this bound explicit and the out-of-fuel branch is
unreachable at the call site below. -/
def search_loop (blocks : List (Term Blk)) : Term Blk → List Tid → Nat → Option Nat
  | _, _, 0 => none
  | blk, visited, fuel + 1 =>
      if blk.term.defs.isEmpty then
        match get_first_branch_tid blk with
        | some target_tid =>
            if blk.tid ∈ visited then
              -- busy loop
              none
            else
              match find_target_index blocks target_tid 0 with
              | some (index, target_blk) =>
                  if target_blk.term.defs.isEmpty then
                    -- continue with new block
                    search_loop blocks target_blk (blk.tid :: visited) fuel
                  else some index
              | none =>
                  -- did not find target
                  none
        | none =>
            -- did not find branch in block
            none
      else
        -- first block was not empty
        some 0

/-- Rust `get_first_blk_with_defs` (`legacy.rs`): the index of the first block
with non-empty defs, found by following first `Jmp::Branch` targets;
`none` when a block is revisited, a target is missing, or a block has no
leading unconditional branch. -/
def get_first_blk_with_defs (sub : Sub) : Option Nat :=
  match sub.blocks.head? with
  | some start_blk => search_loop sub.blocks start_blk [] (sub.blocks.length + 1)
  | none => none

/-- The per-architecture stack-alignment expectation of
`substitute_and_on_stackpointer` (`legacy.rs`, lines 148–153), used only
for the sanity-check diagnostic. -/
def sp_alignment (cpu_architecture : String) : Int :=
  match cpu_architecture with
  | "x86_32" => 16
  | "x86_64" => 16
  | "arm32" => 4
  | _ => 0

/-- The body of the per-subroutine def loop of
`substitute_and_on_stackpointer` (`legacy.rs`, lines 161–215). Processes
the defs of the chosen block in order, threading the journaled
stack-pointer value and the global log list; returns the rewritten def
list and the new global log list. An abort (continue at label sub_loop) returns
the remaining defs unchanged; `none` models a panic. Note that, as in the
source, the abort check after a substitution scans the whole global log
list for the `unsubstitutableText` substring. -/
def processDefs (sp_register : Variable) (al : Int) :
    List (Term Def) → Int → List LogMessage →
    Option (List (Term Def) × List LogMessage)
  | [], _, logs => some ([], logs)
  | d :: rest, journaled_sp, logs =>
      match d.term with
      | Def.Assign var value =>
          if var = sp_register then
            match value with
            | Expression.BinOp op lhs rhs =>
                match op with
                | BinOpType.IntAdd =>
                    match journal_sp_value journaled_sp true lhs rhs sp_register with
                    | none => none
                    | some none => some (d :: rest, logs)
                    | some (some jsp) =>
                        match processDefs sp_register al rest jsp logs with
                        | none => none
                        | some (rest2, logs2) => some (d :: rest2, logs2)
                | BinOpType.IntSub =>
                    match journal_sp_value journaled_sp false lhs rhs sp_register with
                    | none => none
                    | some none => some (d :: rest, logs)
                    | some (some jsp) =>
                        match processDefs sp_register al rest jsp logs with
                        | none => none
                        | some (rest2, logs2) => some (d :: rest2, logs2)
                | _ =>
                    match substitute (Expression.BinOp op lhs rhs) al journaled_sp d.tid with
                    | none => none
                    | some (value2, msg) =>
                        let logs2 := logs ++ msg
                        if logs2.any (fun m => hasSubstring unsubstitutableText m.text) then
                          -- Lost track of SP
                          some (⟨d.tid, Def.Assign var value2⟩ :: rest, logs2)
                        else
                          match processDefs sp_register al rest journaled_sp logs2 with
                          | none => none
                          | some (rest2, logs3) =>
                              some (⟨d.tid, Def.Assign var value2⟩ :: rest2, logs3)
            | _ =>
                some (d :: rest, logs ++ [mkInfo "Unexpected assignment on SP" d.tid])
          else
            match processDefs sp_register al rest journaled_sp logs with
            | none => none
            | some (rest2, logs2) => some (d :: rest2, logs2)
      | _ =>
          match processDefs sp_register al rest journaled_sp logs with
          | none => none
          | some (rest2, logs2) => some (d :: rest2, logs2)

/-- Processing of one subroutine by `substitute_and_on_stackpointer`: the
journaled stack-pointer value is reset to `0`, the first block with defs
is located (a subroutine without one is skipped unchanged), and that
defs of that block are processed. -/
def processSub (sp_register : Variable) (al : Int) (logs : List LogMessage)
    (f : Term Sub) : Option (Term Sub × List LogMessage) :=
  match get_first_blk_with_defs f.term with
  | none => some (f, logs)
  | some index =>
      match f.term.blocks[index]? with
      | none => none
      | some blk =>
          match processDefs sp_register al blk.term.defs 0 logs with
          | none => none
          | some (defs2, logs2) =>
              some (⟨f.tid, ⟨f.term.name,
                f.term.blocks.set index ⟨blk.tid, ⟨defs2, blk.term.jmps⟩⟩⟩⟩, logs2)

/-- The outer loop (label sub_loop) of `substitute_and_on_stackpointer`,
over the subroutines of the program in order, threading the global log list. -/
def processSubs (sp_register : Variable) (al : Int) :
    List (Term Sub) → List LogMessage →
    Option (List (Term Sub) × List LogMessage)
  | [], logs => some ([], logs)
  | f :: rest, logs =>
      match processSub sp_register al logs f with
      | none => none
      | some (f2, logs2) =>
          match processSubs sp_register al rest logs2 with
          | none => none
          | some (rest2, logs3) => some (f2 :: rest2, logs3)

/-- Rust `substitute_and_on_stackpointer` (`legacy.rs`): substitutes logical AND
on the stack-pointer register by SUB across all subroutines of the program
and returns the rewritten program together with the accumulated
diagnostics; `none` models a panic. -/
def substitute_and_on_stackpointer (program : Program)
    (stack_pointer_register : Variable) (cpu_architecture : String) :
    Option (Program × List LogMessage) :=
  match processSubs stack_pointer_register (sp_alignment cpu_architecture)
      program.subs [] with
  | none => none
  | some (subs2, logs) =>
      some (⟨subs2, program.extern_symbols, program.entry_points⟩, logs)

/-! ## Auxiliary predicates used by the theorems -/

/-- All constants of the expression have byte width at most 8, so every
`try_to_i64` performed on them succeeds. -/
def Expression.constsFit : Expression → Bool
  | Expression.Var _ => true
  | Expression.Const c => decide (c.size ≤ 8)
  | Expression.BinOp _ a b => a.constsFit && b.constsFit
  | Expression.UnOp _ a => a.constsFit
  | Expression.Cast _ _ a => a.constsFit
  | Expression.Unknown _ _ => true
  | Expression.Subpiece _ _ a => a.constsFit

/-- All constants of the expressions of the def have byte width at most 8. -/
def Def.constsFit : Def → Bool
  | Def.Load _ a => a.constsFit
  | Def.Store a b => a.constsFit && b.constsFit
  | Def.Assign _ v => v.constsFit

/-- All constants occurring in defs of the program have byte width at most
8 (i.e. they fit in a signed 64-bit integer). -/
def Program.constsFit (p : Program) : Bool :=
  p.subs.all fun s => s.term.blocks.all fun b => b.term.defs.all fun d => d.term.constsFit

/-- How the pass may relate an input def to the corresponding output def:
the `Tid` is preserved, and either the def is unchanged or it is an
assignment to the stack-pointer register whose value expression was
replaced by an `IntSub` of a variable and a constant. -/
def DefSim (sp : Variable) (d d2 : Term Def) : Prop :=
  d2.tid = d.tid ∧
    (d2 = d ∨
      ∃ v w o, d.term = Def.Assign sp v ∧
        d2.term = Def.Assign sp
          (Expression.BinOp BinOpType.IntSub (Expression.Var w) (Expression.Const o)))

/-- How the pass may relate an input block to the corresponding output
block: `Tid` and jump list are preserved exactly and the defs are related
pointwise by `DefSim`. -/
def BlkSim (sp : Variable) (b b2 : Term Blk) : Prop :=
  b2.tid = b.tid ∧ b2.term.jmps = b.term.jmps ∧
    List.Forall₂ (DefSim sp) b.term.defs b2.term.defs

/-- How the pass may relate an input subroutine to the corresponding output
subroutine: `Tid` and name are preserved and the blocks are related
pointwise by `BlkSim`. -/
def SubSim (sp : Variable) (s s2 : Term Sub) : Prop :=
  s2.tid = s.tid ∧ s2.term.name = s.term.name ∧
    List.Forall₂ (BlkSim sp) s.term.blocks s2.term.blocks

/-- The block shape invariant: at most two jumps, and a leading `CBranch`
when there are exactly two. -/
def BlkShape (b : Blk) : Prop :=
  b.jmps.length ≤ 2 ∧
    (b.jmps.length = 2 → ∃ j t c, b.jmps.head? = some j ∧ j.term = Jmp.CBranch t c)

/-! ## Concrete inputs used by the theorems

The registers, constants, blocks and programs below instantiate the claims
on explicit data: an `x86_64`-style stack pointer `RSP`, the 64-bit
alignment bitmask `-16`, and small programs exercising the journaling, the
abort conditions and the cross-subroutine behaviour of the pass. -/

/-- The stack-pointer register of the examples. -/
def rsp : Variable := ⟨"RSP", 8⟩

/-- A general-purpose register distinct from the stack pointer. -/
def rax : Variable := ⟨"RAX", 8⟩

/-- The 64-bit constant `-16`, the usual 16-byte alignment bitmask. -/
def mask16 : Bitvector := ⟨8, 2 ^ 64 - 16⟩

/-- Def `RSP := RSP + 8`. -/
def alignDef1 : Term Def :=
  ⟨⟨"d1", "UNKNOWN"⟩, Def.Assign rsp
    (Expression.BinOp BinOpType.IntAdd (Expression.Var rsp) (Expression.Const ⟨8, 8⟩))⟩

/-- Def `RSP := RSP - 4`. -/
def alignDef2 : Term Def :=
  ⟨⟨"d2", "UNKNOWN"⟩, Def.Assign rsp
    (Expression.BinOp BinOpType.IntSub (Expression.Var rsp) (Expression.Const ⟨8, 4⟩))⟩

/-- Def `RSP := RSP AND -16`, the alignment idiom to be rewritten. -/
def alignDef3 : Term Def :=
  ⟨⟨"d3", "UNKNOWN"⟩, Def.Assign rsp
    (Expression.BinOp BinOpType.IntAnd (Expression.Var rsp) (Expression.Const mask16))⟩

/-- The rewrite of `alignDef3` at journaled value `4`: `RSP := RSP - 4`. -/
def alignDef3R : Term Def :=
  ⟨⟨"d3", "UNKNOWN"⟩, Def.Assign rsp
    (Expression.BinOp BinOpType.IntSub (Expression.Var rsp) (Expression.Const ⟨8, 4⟩))⟩

/-- The journaling example program of the spec:
`[sp := sp + 8; sp := sp - 4; sp := sp AND -16]` in a single block. -/
def alignProg : Program :=
  ⟨[⟨⟨"sub0", "UNKNOWN"⟩, ⟨"f",
    [⟨⟨"blk0", "UNKNOWN"⟩, ⟨[alignDef1, alignDef2, alignDef3], []⟩⟩]⟩⟩], [], []⟩

/-- Program `alignProg` after the pass: only the `IntAnd` def is rewritten. -/
def alignProgR : Program :=
  ⟨[⟨⟨"sub0", "UNKNOWN"⟩, ⟨"f",
    [⟨⟨"blk0", "UNKNOWN"⟩, ⟨[alignDef1, alignDef2, alignDef3R], []⟩⟩]⟩⟩], [], []⟩

/-- A 128-bit constant whose value `2 ^ 100` does not fit in a signed
64-bit integer. -/
def hugeConst : Bitvector := ⟨16, 2 ^ 100⟩

/-- A program whose only def adds the oversized constant to the stack
pointer, making the `unwrap()` in `journal_sp_value` panic. -/
def panicProg : Program :=
  ⟨[⟨⟨"subP", "UNKNOWN"⟩, ⟨"p",
    [⟨⟨"blkP", "UNKNOWN"⟩, ⟨[⟨⟨"p1", "UNKNOWN"⟩, Def.Assign rsp
      (Expression.BinOp BinOpType.IntAdd (Expression.Var rsp)
        (Expression.Const hugeConst))⟩], []⟩⟩]⟩⟩], [], []⟩

/-- Def `RSP := RAX AND -16`: an `IntAnd` assigned to the stack pointer whose
variable operand is not the stack-pointer register. -/
def mixDef : Term Def :=
  ⟨⟨"m1", "UNKNOWN"⟩, Def.Assign rsp
    (Expression.BinOp BinOpType.IntAnd (Expression.Var rax) (Expression.Const mask16))⟩

/-- A program whose only def is `mixDef`. -/
def mixProg : Program :=
  ⟨[⟨⟨"subM", "UNKNOWN"⟩, ⟨"m",
    [⟨⟨"blkM", "UNKNOWN"⟩, ⟨[mixDef], []⟩⟩]⟩⟩], [], []⟩

/-- Program `mixProg` after the pass: the def is rewritten to `RSP := RAX - 0`
(with no diagnostic), because `substitute` accepts any variable operand. -/
def mixProgR : Program :=
  ⟨[⟨⟨"subM", "UNKNOWN"⟩, ⟨"m",
    [⟨⟨"blkM", "UNKNOWN"⟩, ⟨[⟨⟨"m1", "UNKNOWN"⟩, Def.Assign rsp
      (Expression.BinOp BinOpType.IntSub (Expression.Var rax)
        (Expression.Const ⟨8, 0⟩))⟩], []⟩⟩]⟩⟩], [], []⟩

/-- Def `RSP := RSP XOR -16`: a binary operation on the stack pointer that is
neither journaling arithmetic nor the alignment idiom; it provokes the
"Unsubstitutable Operation on SP" diagnostic. -/
def xorDef : Term Def :=
  ⟨⟨"a1", "UNKNOWN"⟩, Def.Assign rsp
    (Expression.BinOp BinOpType.IntXOr (Expression.Var rsp) (Expression.Const mask16))⟩

/-- Subroutine `A`: its single def provokes an "Unsubstitutable" diagnostic
and aborts the rewriting of `A` itself. -/
def subA : Term Sub :=
  ⟨⟨"subA", "UNKNOWN"⟩, ⟨"A", [⟨⟨"blkA", "UNKNOWN"⟩, ⟨[xorDef], []⟩⟩]⟩⟩

/-- First alignment idiom of subroutine `B`. -/
def andDef1 : Term Def :=
  ⟨⟨"b1", "UNKNOWN"⟩, Def.Assign rsp
    (Expression.BinOp BinOpType.IntAnd (Expression.Var rsp) (Expression.Const mask16))⟩

/-- Second alignment idiom of subroutine `B`. -/
def andDef2 : Term Def :=
  ⟨⟨"b2", "UNKNOWN"⟩, Def.Assign rsp
    (Expression.BinOp BinOpType.IntAnd (Expression.Var rsp) (Expression.Const mask16))⟩

/-- The rewrite of `andDef1` at journaled value `0`: `RSP := RSP - 0`. -/
def andDef1R : Term Def :=
  ⟨⟨"b1", "UNKNOWN"⟩, Def.Assign rsp
    (Expression.BinOp BinOpType.IntSub (Expression.Var rsp) (Expression.Const ⟨8, 0⟩))⟩

/-- The rewrite of `andDef2` at journaled value `0`: `RSP := RSP - 0`. -/
def andDef2R : Term Def :=
  ⟨⟨"b2", "UNKNOWN"⟩, Def.Assign rsp
    (Expression.BinOp BinOpType.IntSub (Expression.Var rsp) (Expression.Const ⟨8, 0⟩))⟩

/-- Subroutine `B`: two alignment idioms in its single block. -/
def subB : Term Sub :=
  ⟨⟨"subB", "UNKNOWN"⟩, ⟨"B", [⟨⟨"blkB", "UNKNOWN"⟩, ⟨[andDef1, andDef2], []⟩⟩]⟩⟩

/-- Subroutine `B` as the pass leaves it when `B` is preceded by `A`:
only the first idiom is rewritten, because the stale "Unsubstitutable"
diagnostic of `A` in the global log list aborts the processing of `B`. -/
def subBPartial : Term Sub :=
  ⟨⟨"subB", "UNKNOWN"⟩, ⟨"B", [⟨⟨"blkB", "UNKNOWN"⟩, ⟨[andDef1R, andDef2], []⟩⟩]⟩⟩

/-- Subroutine `B` fully normalized: both idioms rewritten. -/
def subBFull : Term Sub :=
  ⟨⟨"subB", "UNKNOWN"⟩, ⟨"B", [⟨⟨"blkB", "UNKNOWN"⟩, ⟨[andDef1R, andDef2R], []⟩⟩]⟩⟩

/-- The program containing subroutines `[A, B]`. -/
def progAB : Program := ⟨[subA, subB], [], []⟩

/-- Program `progAB` after the pass: `B` is only partially rewritten. -/
def progABR : Program := ⟨[subA, subBPartial], [], []⟩

/-- The program containing only subroutine `B`. -/
def progB : Program := ⟨[subB], [], []⟩

/-- Program `progB` after the pass: `B` is fully rewritten. -/
def progBR : Program := ⟨[subBFull], [], []⟩

/-- A subroutine whose entry-block resolution cycles: block `cA` branches
to `cB` and `cB` branches back to `cA`, neither has defs. -/
def cycSub : Term Sub :=
  ⟨⟨"subC", "UNKNOWN"⟩, ⟨"C",
    [⟨⟨"cA", "UNKNOWN"⟩, ⟨[], [⟨⟨"jA", "UNKNOWN"⟩, Jmp.Branch ⟨"cB", "UNKNOWN"⟩⟩]⟩⟩,
     ⟨⟨"cB", "UNKNOWN"⟩, ⟨[], [⟨⟨"jB", "UNKNOWN"⟩, Jmp.Branch ⟨"cA", "UNKNOWN"⟩⟩]⟩⟩]⟩⟩

/-- A subroutine whose empty first block branches to a `Tid` that is not
among its blocks. -/
def lostSub : Term Sub :=
  ⟨⟨"subL", "UNKNOWN"⟩, ⟨"L",
    [⟨⟨"lA", "UNKNOWN"⟩, ⟨[], [⟨⟨"jL", "UNKNOWN"⟩, Jmp.Branch ⟨"nowhere", "UNKNOWN"⟩⟩]⟩⟩]⟩⟩

/-- A subroutine whose empty first block has a conditional branch, not an
unconditional `Branch`, as its first jump. -/
def noBranchSub : Term Sub :=
  ⟨⟨"subN", "UNKNOWN"⟩, ⟨"N",
    [⟨⟨"nA", "UNKNOWN"⟩, ⟨[],
      [⟨⟨"jN", "UNKNOWN"⟩, Jmp.CBranch ⟨"nA", "UNKNOWN"⟩ (Expression.Var rax)⟩]⟩⟩]⟩⟩

/-- A program with the cyclic subroutine followed by the well-formed
subroutine `B`. -/
def isoProg : Program := ⟨[cycSub, subB], [], []⟩

/-- Program `isoProg` after the pass: the cyclic subroutine is untouched and `B` is
fully normalized. -/
def isoProgR : Program := ⟨[cycSub, subBFull], [], []⟩

/-- Def `RAX := ZExt(EAX)`: the zero-extension idiom of the example in the spec. -/
def zxDef : Term Def :=
  ⟨⟨"zx", "UNKNOWN"⟩, Def.Assign ⟨"RAX", 8⟩
    (Expression.Cast CastOpType.IntZExt 8 (Expression.Var ⟨"EAX", 4⟩))⟩

/-! ## Helper lemmas -/

/-- Function `wrap64` is the identity on the signed 64-bit range. -/
theorem wrap64_eq_self {x : Int} (h1 : -(2 ^ 63) ≤ x) (h2 : x < 2 ^ 63) :
    wrap64 x = x := by
  unfold wrap64
  have h3 : (0 : Int) ≤ x + 2 ^ 63 := by linarith
  have h4 : x + 2 ^ 63 < 2 ^ 64 := by
    have h5 : (2 : Int) ^ 64 = 2 ^ 63 + 2 ^ 63 := by norm_num
    linarith
  rw [Int.emod_eq_of_lt h3 h4]
  ring

/-- Function `try_to_i64` succeeds on constants of byte width at most 8. -/
theorem try_to_i64_of_size_le {c : Bitvector} (h : c.size ≤ 8) :
    c.try_to_i64 = some c.to_int := by
  unfold Bitvector.try_to_i64
  have h64 : 8 * c.size ≤ 64 := by omega
  simp [h64]

/-- Function `into_negate` preserves the byte width. -/
theorem into_negate_size (c : Bitvector) : (Bitvector.into_negate c).size = c.size := rfl


/-- The matched arm of `substitute` cannot panic when the bitmask fits. -/
theorem substituteMatched_isSome (op : BinOpType) (x : Variable) (c : Bitvector)
    (orig : Expression) (al jsp : Int) (tid : Tid) (hsz : c.size ≤ 8) :
    (substitute.substituteMatched op x c orig al jsp tid).isSome = true := by
  have hneg : (Bitvector.into_negate c).size ≤ 8 := hsz
  cases op <;>
    simp [substitute.substituteMatched, try_to_i64_of_size_le hsz,
      try_to_i64_of_size_le hneg]

/-- Function `substitute` cannot panic when every constant of the expression fits in
a signed 64-bit integer. -/
theorem substitute_isSome (e : Expression) (al jsp : Int) (tid : Tid)
    (h : e.constsFit = true) : (substitute e al jsp tid).isSome = true := by
  cases e with
  | BinOp op a b =>
    cases a <;> cases b <;>
      first
      | (refine substituteMatched_isSome _ _ _ _ _ _ _ ?_
         simp [Expression.constsFit, Bool.and_eq_true] at h
         first
           | exact h.1
           | exact h.2
           | exact h)
      | simp [substitute]
  | Var v => simp [substitute]
  | Const c => simp [substitute]
  | UnOp op a => simp [substitute]
  | Cast op n a => simp [substitute]
  | Unknown s n => simp [substitute]
  | Subpiece x y a => simp [substitute]

/-- The matched arm of `journal_sp_value` cannot panic when the constant
fits. -/
theorem journalMatched_isSome (jsp : Int) (is_plus : Bool) (x : Variable)
    (c : Bitvector) (sp : Variable) (hc : c.size ≤ 8) :
    (journal_sp_value.journalMatched jsp is_plus x c sp).isSome = true := by
  unfold journal_sp_value.journalMatched
  split
  · simp [try_to_i64_of_size_le hc]
  · simp

/-- Function `journal_sp_value` cannot panic when every constant of its operand
expressions fits in a signed 64-bit integer. -/
theorem journal_sp_value_isSome (jsp : Int) (is_plus : Bool) (a b : Expression)
    (sp : Variable) (ha : a.constsFit = true) (hb : b.constsFit = true) :
    (journal_sp_value jsp is_plus a b sp).isSome = true := by
  cases a <;> cases b <;>
    first
    | (refine journalMatched_isSome _ _ _ _ _ ?_
       simp [Expression.constsFit] at ha hb
       first
         | exact hb
         | exact ha)
    | simp [journal_sp_value]

/-- Function `processDefs` cannot panic when every constant of the defs fits in a
signed 64-bit integer. -/
theorem processDefs_isSome (sp : Variable) (al : Int) :
    ∀ (ds : List (Term Def)) (jsp : Int) (logs : List LogMessage),
      (ds.all fun d => d.term.constsFit) = true →
      (processDefs sp al ds jsp logs).isSome = true := by
  intro ds
  induction ds with
  | nil => intro jsp logs _; simp [processDefs]
  | cons d rest ih =>
    intro jsp logs h
    rw [List.all_cons, Bool.and_eq_true] at h
    obtain ⟨hd, hrest⟩ := h
    rcases d with ⟨tid, td⟩
    cases td with
    | Load v a =>
      obtain ⟨⟨rest2, logs2⟩, hr⟩ := Option.isSome_iff_exists.mp (ih jsp logs hrest)
      simp [processDefs, hr]
    | Store a b =>
      obtain ⟨⟨rest2, logs2⟩, hr⟩ := Option.isSome_iff_exists.mp (ih jsp logs hrest)
      simp [processDefs, hr]
    | Assign var value =>
      by_cases hv : var = sp
      · subst hv
        cases value with
        | BinOp op a b =>
          have hfit : a.constsFit = true ∧ b.constsFit = true := by
            simpa [Def.constsFit, Expression.constsFit, Bool.and_eq_true] using hd
          cases op with
          | IntAdd =>
            obtain ⟨jr, hj⟩ := Option.isSome_iff_exists.mp
              (journal_sp_value_isSome jsp true a b var hfit.1 hfit.2)
            cases jr with
            | none => simp [processDefs, hj]
            | some j =>
              obtain ⟨⟨rest2, logs2⟩, hr⟩ := Option.isSome_iff_exists.mp (ih j logs hrest)
              simp [processDefs, hj, hr]
          | IntSub =>
            obtain ⟨jr, hj⟩ := Option.isSome_iff_exists.mp
              (journal_sp_value_isSome jsp false a b var hfit.1 hfit.2)
            cases jr with
            | none => simp [processDefs, hj]
            | some j =>
              obtain ⟨⟨rest2, logs2⟩, hr⟩ := Option.isSome_iff_exists.mp (ih j logs hrest)
              simp [processDefs, hj, hr]
          | Piece =>
            obtain ⟨⟨value2, msg⟩, hs⟩ := Option.isSome_iff_exists.mp
              (substitute_isSome _ al jsp tid hd)
            by_cases hany :
              ((logs ++ msg).any fun m => hasSubstring unsubstitutableText m.text) = true
            · simp [processDefs, hs, hany]
            · obtain ⟨⟨rest2, logs2⟩, hr⟩ :=
                Option.isSome_iff_exists.mp (ih jsp (logs ++ msg) hrest)
              simp [processDefs, hs, hany, hr]
          | IntEqual =>
            obtain ⟨⟨value2, msg⟩, hs⟩ := Option.isSome_iff_exists.mp
              (substitute_isSome _ al jsp tid hd)
            by_cases hany :
              ((logs ++ msg).any fun m => hasSubstring unsubstitutableText m.text) = true
            · simp [processDefs, hs, hany]
            · obtain ⟨⟨rest2, logs2⟩, hr⟩ :=
                Option.isSome_iff_exists.mp (ih jsp (logs ++ msg) hrest)
              simp [processDefs, hs, hany, hr]
          | IntAnd =>
            obtain ⟨⟨value2, msg⟩, hs⟩ := Option.isSome_iff_exists.mp
              (substitute_isSome _ al jsp tid hd)
            by_cases hany :
              ((logs ++ msg).any fun m => hasSubstring unsubstitutableText m.text) = true
            · simp [processDefs, hs, hany]
            · obtain ⟨⟨rest2, logs2⟩, hr⟩ :=
                Option.isSome_iff_exists.mp (ih jsp (logs ++ msg) hrest)
              simp [processDefs, hs, hany, hr]
          | IntOr =>
            obtain ⟨⟨value2, msg⟩, hs⟩ := Option.isSome_iff_exists.mp
              (substitute_isSome _ al jsp tid hd)
            by_cases hany :
              ((logs ++ msg).any fun m => hasSubstring unsubstitutableText m.text) = true
            · simp [processDefs, hs, hany]
            · obtain ⟨⟨rest2, logs2⟩, hr⟩ :=
                Option.isSome_iff_exists.mp (ih jsp (logs ++ msg) hrest)
              simp [processDefs, hs, hany, hr]
          | IntXOr =>
            obtain ⟨⟨value2, msg⟩, hs⟩ := Option.isSome_iff_exists.mp
              (substitute_isSome _ al jsp tid hd)
            by_cases hany :
              ((logs ++ msg).any fun m => hasSubstring unsubstitutableText m.text) = true
            · simp [processDefs, hs, hany]
            · obtain ⟨⟨rest2, logs2⟩, hr⟩ :=
                Option.isSome_iff_exists.mp (ih jsp (logs ++ msg) hrest)
              simp [processDefs, hs, hany, hr]
          | IntMult =>
            obtain ⟨⟨value2, msg⟩, hs⟩ := Option.isSome_iff_exists.mp
              (substitute_isSome _ al jsp tid hd)
            by_cases hany :
              ((logs ++ msg).any fun m => hasSubstring unsubstitutableText m.text) = true
            · simp [processDefs, hs, hany]
            · obtain ⟨⟨rest2, logs2⟩, hr⟩ :=
                Option.isSome_iff_exists.mp (ih jsp (logs ++ msg) hrest)
              simp [processDefs, hs, hany, hr]
        | Var v => simp [processDefs]
        | Const c => simp [processDefs]
        | UnOp op a => simp [processDefs]
        | Cast op n a => simp [processDefs]
        | Unknown s n => simp [processDefs]
        | Subpiece x y a => simp [processDefs]
      · obtain ⟨⟨rest2, logs2⟩, hr⟩ := Option.isSome_iff_exists.mp (ih jsp logs hrest)
        simp [processDefs, hv, hr]

theorem find_target_index_spec :
    ∀ (bs : List (Term Blk)) (t : Tid) (base j : Nat) (b : Term Blk),
      find_target_index bs t base = some (j, b) →
      base ≤ j ∧ j - base < bs.length ∧ bs[j - base]? = some b := by
  intro bs
  induction bs with
  | nil => intro t base j b h; simp [find_target_index] at h
  | cons x xs ih =>
    intro t base j b h
    unfold find_target_index at h
    split at h
    · injection h with h
      injection h with h1 h2
      subst h1
      subst h2
      simp
    · obtain ⟨h1, h2, h3⟩ := ih t (base + 1) j b h
      refine ⟨by omega, by simp; omega, ?_⟩
      have hj : j - base = (j - (base + 1)) + 1 := by omega
      rw [hj]
      simpa using h3

theorem search_loop_valid :
    ∀ (fuel : Nat) (blocks : List (Term Blk)) (blk : Term Blk)
      (visited : List Tid) (i : Nat),
      search_loop blocks blk visited fuel = some i →
      i = 0 ∨ ∃ b, blocks[i]? = some b := by
  intro fuel
  induction fuel with
  | zero => intro blocks blk visited i h; simp [search_loop] at h
  | succ fuel ih =>
    intro blocks blk visited i h
    unfold search_loop at h
    split at h
    · split at h
      · split at h
        · exact Option.noConfusion h
        · split at h
          · split at h
            · exact ih _ _ _ _ h
            · next index tb hfind hne =>
              injection h with h
              subst h
              obtain ⟨h1, h2, h3⟩ := find_target_index_spec blocks _ 0 index tb hfind
              right
              exact ⟨tb, by simpa using h3⟩
          · exact Option.noConfusion h
      · exact Option.noConfusion h
    · injection h with h
      exact Or.inl h.symm

theorem get_first_blk_with_defs_valid (sub : Sub) (i : Nat)
    (h : get_first_blk_with_defs sub = some i) :
    ∃ b, sub.blocks[i]? = some b := by
  unfold get_first_blk_with_defs at h
  split at h
  next start hstart =>
    rcases search_loop_valid _ _ _ _ _ h with hz | hb
    · subst hz
      rw [List.head?_eq_getElem?] at hstart
      exact ⟨start, hstart⟩
    · exact hb
  next hstart => exact Option.noConfusion h

theorem processSub_isSome (sp : Variable) (al : Int) (logs : List LogMessage)
    (f : Term Sub)
    (hfit : (f.term.blocks.all fun b => b.term.defs.all fun d => d.term.constsFit)
      = true) :
    (processSub sp al logs f).isSome = true := by
  unfold processSub
  cases hg : get_first_blk_with_defs f.term with
  | none => rfl
  | some index =>
    obtain ⟨blk, hblk⟩ := get_first_blk_with_defs_valid f.term index hg
    dsimp only
    rw [hblk]
    dsimp only
    have hmem : blk ∈ f.term.blocks := List.getElem?_mem hblk
    have hdfit : (blk.term.defs.all fun d => d.term.constsFit) = true := by
      rw [List.all_eq_true] at hfit
      exact hfit blk hmem
    obtain ⟨⟨defs2, logs2⟩, hp⟩ := Option.isSome_iff_exists.mp
      (processDefs_isSome sp al blk.term.defs 0 logs hdfit)
    rw [hp]
    rfl

theorem processSubs_isSome (sp : Variable) (al : Int) :
    ∀ (subs : List (Term Sub)) (logs : List LogMessage),
      (subs.all fun s => s.term.blocks.all fun b =>
        b.term.defs.all fun d => d.term.constsFit) = true →
      (processSubs sp al subs logs).isSome = true := by
  intro subs
  induction subs with
  | nil => intro logs _; simp [processSubs]
  | cons f rest ih =>
    intro logs h
    rw [List.all_cons, Bool.and_eq_true] at h
    obtain ⟨hf, hrest⟩ := h
    obtain ⟨⟨f2, logs2⟩, hp⟩ := Option.isSome_iff_exists.mp
      (processSub_isSome sp al logs f hf)
    obtain ⟨⟨rest2, logs3⟩, hr⟩ := Option.isSome_iff_exists.mp (ih logs2 hrest)
    simp [processSubs, hp, hr]


/-- Relation `DefSim` is reflexive. -/
theorem DefSim_refl (sp : Variable) (d : Term Def) : DefSim sp d d :=
  ⟨rfl, Or.inl rfl⟩

/-- Relation `BlkSim` is reflexive. -/
theorem BlkSim_refl (sp : Variable) (b : Term Blk) : BlkSim sp b b :=
  ⟨rfl, rfl, List.forall₂_same.mpr fun d _ => DefSim_refl sp d⟩

/-- Relation `SubSim` is reflexive. -/
theorem SubSim_refl (sp : Variable) (s : Term Sub) : SubSim sp s s :=
  ⟨rfl, rfl, List.forall₂_same.mpr fun b _ => BlkSim_refl sp b⟩

/-- The output expression of `substitute` is either the input or an
`IntSub` of a variable and a constant. -/
theorem substitute_shape (e : Expression) (al jsp : Int) (tid : Tid)
    (e2 : Expression) (msg : List LogMessage)
    (h : substitute e al jsp tid = some (e2, msg)) :
    e2 = e ∨ ∃ w o, e2 = Expression.BinOp BinOpType.IntSub (Expression.Var w)
      (Expression.Const o) := by
  have hM : ∀ (op : BinOpType) (x : Variable) (c : Bitvector) (orig : Expression),
      substitute.substituteMatched op x c orig al jsp tid = some (e2, msg) →
      e2 = orig ∨ ∃ w o, e2 = Expression.BinOp BinOpType.IntSub (Expression.Var w)
        (Expression.Const o) := by
    intro op x c orig hm
    cases op
    case IntAnd =>
      rcases hn : (Bitvector.into_negate c).try_to_i64 with _ | negated
      · simp [substitute.substituteMatched, hn] at hm
      · rcases hc : c.try_to_i64 with _ | m
        · simp [substitute.substituteMatched, hn, hc] at hm
        · simp [substitute.substituteMatched, hn, hc] at hm
          exact Or.inr ⟨x, _, hm.1.symm⟩
    all_goals
      simp [substitute.substituteMatched] at hm
    all_goals
      exact Or.inl hm.1.symm
  cases e with
  | BinOp op a b =>
    cases a <;> cases b <;>
      first
      | exact hM _ _ _ _ h
      | (simp [substitute] at h
         exact Or.inl h.1.symm)
  | Var v => simp [substitute] at h; exact Or.inl h.1.symm
  | Const c => simp [substitute] at h; exact Or.inl h.1.symm
  | UnOp op a => simp [substitute] at h; exact Or.inl h.1.symm
  | Cast op n a => simp [substitute] at h; exact Or.inl h.1.symm
  | Unknown s n => simp [substitute] at h; exact Or.inl h.1.symm
  | Subpiece x y a => simp [substitute] at h; exact Or.inl h.1.symm

/-- A def rewritten by `substitute` is `DefSim`-related to the original. -/
theorem defsim_of_subst (sp : Variable) (tid : Tid)
    (value value2 : Expression) (msg : List LogMessage)
    (al jsp : Int) (hs : substitute value al jsp tid = some (value2, msg)) :
    DefSim sp ⟨tid, Def.Assign sp value⟩ ⟨tid, Def.Assign sp value2⟩ := by
  refine ⟨rfl, ?_⟩
  rcases substitute_shape value al jsp tid value2 msg hs with he | ⟨w, o, ho⟩
  · subst he
    exact Or.inl rfl
  · exact Or.inr ⟨value, w, o, rfl, by rw [ho]⟩

/-- Function `processDefs` relates its input and output def lists pointwise by
`DefSim`. -/
theorem processDefs_sim (sp : Variable) (al : Int) :
    ∀ (ds : List (Term Def)) (jsp : Int) (logs : List LogMessage)
      (ds2 : List (Term Def)) (logs2 : List LogMessage),
      processDefs sp al ds jsp logs = some (ds2, logs2) →
      List.Forall₂ (DefSim sp) ds ds2 := by
  intro ds
  induction ds with
  | nil =>
    intro jsp logs ds2 logs2 h
    simp [processDefs] at h
    obtain ⟨h1, h2⟩ := h
    subst h1
    exact List.Forall₂.nil
  | cons d rest ih =>
    intro jsp logs ds2 logs2 h
    rcases d with ⟨tid, td⟩
    cases td with
    | Load v a =>
      rcases hr : processDefs sp al rest jsp logs with _ | ⟨rest2, logs3⟩
      · simp [processDefs, hr] at h
      · simp [processDefs, hr] at h
        obtain ⟨h1, h2⟩ := h
        subst h1
        exact List.Forall₂.cons (DefSim_refl sp _) (ih jsp logs rest2 logs3 hr)
    | Store a b =>
      rcases hr : processDefs sp al rest jsp logs with _ | ⟨rest2, logs3⟩
      · simp [processDefs, hr] at h
      · simp [processDefs, hr] at h
        obtain ⟨h1, h2⟩ := h
        subst h1
        exact List.Forall₂.cons (DefSim_refl sp _) (ih jsp logs rest2 logs3 hr)
    | Assign var value =>
      by_cases hv : var = sp
      · subst hv
        cases value with
        | BinOp op a b =>
          cases op with
          | IntAdd =>
            rcases hj : journal_sp_value jsp true a b var with _ | (_ | j)
            · simp [processDefs, hj] at h
            · simp [processDefs, hj] at h
              obtain ⟨h1, h2⟩ := h
              subst h1
              exact List.forall₂_same.mpr fun x _ => DefSim_refl var x
            · rcases hr : processDefs var al rest j logs with _ | ⟨rest2, logs3⟩
              · simp [processDefs, hj, hr] at h
              · simp [processDefs, hj, hr] at h
                obtain ⟨h1, h2⟩ := h
                subst h1
                exact List.Forall₂.cons (DefSim_refl var _) (ih j logs rest2 logs3 hr)
          | IntSub =>
            rcases hj : journal_sp_value jsp false a b var with _ | (_ | j)
            · simp [processDefs, hj] at h
            · simp [processDefs, hj] at h
              obtain ⟨h1, h2⟩ := h
              subst h1
              exact List.forall₂_same.mpr fun x _ => DefSim_refl var x
            · rcases hr : processDefs var al rest j logs with _ | ⟨rest2, logs3⟩
              · simp [processDefs, hj, hr] at h
              · simp [processDefs, hj, hr] at h
                obtain ⟨h1, h2⟩ := h
                subst h1
                exact List.Forall₂.cons (DefSim_refl var _) (ih j logs rest2 logs3 hr)
          | Piece =>
            rcases hs : substitute (Expression.BinOp BinOpType.Piece a b) al jsp tid
              with _ | ⟨value2, msg⟩
            · simp [processDefs, hs] at h
            · by_cases hany : ((logs ++ msg).any
                  fun m => hasSubstring unsubstitutableText m.text) = true
              · simp [processDefs, hs, hany] at h
                obtain ⟨h1, h2⟩ := h
                subst h1
                exact List.Forall₂.cons (defsim_of_subst var tid _ _ _ _ _ hs)
                  (List.forall₂_same.mpr fun x _ => DefSim_refl var x)
              · rcases hr : processDefs var al rest jsp (logs ++ msg)
                  with _ | ⟨rest2, logs3⟩
                · simp [processDefs, hs, hany, hr] at h
                · simp [processDefs, hs, hany, hr] at h
                  obtain ⟨h1, h2⟩ := h
                  subst h1
                  exact List.Forall₂.cons (defsim_of_subst var tid _ _ _ _ _ hs)
                    (ih jsp (logs ++ msg) rest2 logs3 hr)
          | IntEqual =>
            rcases hs : substitute (Expression.BinOp BinOpType.IntEqual a b) al jsp tid
              with _ | ⟨value2, msg⟩
            · simp [processDefs, hs] at h
            · by_cases hany : ((logs ++ msg).any
                  fun m => hasSubstring unsubstitutableText m.text) = true
              · simp [processDefs, hs, hany] at h
                obtain ⟨h1, h2⟩ := h
                subst h1
                exact List.Forall₂.cons (defsim_of_subst var tid _ _ _ _ _ hs)
                  (List.forall₂_same.mpr fun x _ => DefSim_refl var x)
              · rcases hr : processDefs var al rest jsp (logs ++ msg)
                  with _ | ⟨rest2, logs3⟩
                · simp [processDefs, hs, hany, hr] at h
                · simp [processDefs, hs, hany, hr] at h
                  obtain ⟨h1, h2⟩ := h
                  subst h1
                  exact List.Forall₂.cons (defsim_of_subst var tid _ _ _ _ _ hs)
                    (ih jsp (logs ++ msg) rest2 logs3 hr)
          | IntAnd =>
            rcases hs : substitute (Expression.BinOp BinOpType.IntAnd a b) al jsp tid
              with _ | ⟨value2, msg⟩
            · simp [processDefs, hs] at h
            · by_cases hany : ((logs ++ msg).any
                  fun m => hasSubstring unsubstitutableText m.text) = true
              · simp [processDefs, hs, hany] at h
                obtain ⟨h1, h2⟩ := h
                subst h1
                exact List.Forall₂.cons (defsim_of_subst var tid _ _ _ _ _ hs)
                  (List.forall₂_same.mpr fun x _ => DefSim_refl var x)
              · rcases hr : processDefs var al rest jsp (logs ++ msg)
                  with _ | ⟨rest2, logs3⟩
                · simp [processDefs, hs, hany, hr] at h
                · simp [processDefs, hs, hany, hr] at h
                  obtain ⟨h1, h2⟩ := h
                  subst h1
                  exact List.Forall₂.cons (defsim_of_subst var tid _ _ _ _ _ hs)
                    (ih jsp (logs ++ msg) rest2 logs3 hr)
          | IntOr =>
            rcases hs : substitute (Expression.BinOp BinOpType.IntOr a b) al jsp tid
              with _ | ⟨value2, msg⟩
            · simp [processDefs, hs] at h
            · by_cases hany : ((logs ++ msg).any
                  fun m => hasSubstring unsubstitutableText m.text) = true
              · simp [processDefs, hs, hany] at h
                obtain ⟨h1, h2⟩ := h
                subst h1
                exact List.Forall₂.cons (defsim_of_subst var tid _ _ _ _ _ hs)
                  (List.forall₂_same.mpr fun x _ => DefSim_refl var x)
              · rcases hr : processDefs var al rest jsp (logs ++ msg)
                  with _ | ⟨rest2, logs3⟩
                · simp [processDefs, hs, hany, hr] at h
                · simp [processDefs, hs, hany, hr] at h
                  obtain ⟨h1, h2⟩ := h
                  subst h1
                  exact List.Forall₂.cons (defsim_of_subst var tid _ _ _ _ _ hs)
                    (ih jsp (logs ++ msg) rest2 logs3 hr)
          | IntXOr =>
            rcases hs : substitute (Expression.BinOp BinOpType.IntXOr a b) al jsp tid
              with _ | ⟨value2, msg⟩
            · simp [processDefs, hs] at h
            · by_cases hany : ((logs ++ msg).any
                  fun m => hasSubstring unsubstitutableText m.text) = true
              · simp [processDefs, hs, hany] at h
                obtain ⟨h1, h2⟩ := h
                subst h1
                exact List.Forall₂.cons (defsim_of_subst var tid _ _ _ _ _ hs)
                  (List.forall₂_same.mpr fun x _ => DefSim_refl var x)
              · rcases hr : processDefs var al rest jsp (logs ++ msg)
                  with _ | ⟨rest2, logs3⟩
                · simp [processDefs, hs, hany, hr] at h
                · simp [processDefs, hs, hany, hr] at h
                  obtain ⟨h1, h2⟩ := h
                  subst h1
                  exact List.Forall₂.cons (defsim_of_subst var tid _ _ _ _ _ hs)
                    (ih jsp (logs ++ msg) rest2 logs3 hr)
          | IntMult =>
            rcases hs : substitute (Expression.BinOp BinOpType.IntMult a b) al jsp tid
              with _ | ⟨value2, msg⟩
            · simp [processDefs, hs] at h
            · by_cases hany : ((logs ++ msg).any
                  fun m => hasSubstring unsubstitutableText m.text) = true
              · simp [processDefs, hs, hany] at h
                obtain ⟨h1, h2⟩ := h
                subst h1
                exact List.Forall₂.cons (defsim_of_subst var tid _ _ _ _ _ hs)
                  (List.forall₂_same.mpr fun x _ => DefSim_refl var x)
              · rcases hr : processDefs var al rest jsp (logs ++ msg)
                  with _ | ⟨rest2, logs3⟩
                · simp [processDefs, hs, hany, hr] at h
                · simp [processDefs, hs, hany, hr] at h
                  obtain ⟨h1, h2⟩ := h
                  subst h1
                  exact List.Forall₂.cons (defsim_of_subst var tid _ _ _ _ _ hs)
                    (ih jsp (logs ++ msg) rest2 logs3 hr)
        | Var v =>
          simp [processDefs] at h
          obtain ⟨h1, h2⟩ := h
          subst h1
          exact List.forall₂_same.mpr fun x _ => DefSim_refl var x
        | Const c =>
          simp [processDefs] at h
          obtain ⟨h1, h2⟩ := h
          subst h1
          exact List.forall₂_same.mpr fun x _ => DefSim_refl var x
        | UnOp op a =>
          simp [processDefs] at h
          obtain ⟨h1, h2⟩ := h
          subst h1
          exact List.forall₂_same.mpr fun x _ => DefSim_refl var x
        | Cast op n a =>
          simp [processDefs] at h
          obtain ⟨h1, h2⟩ := h
          subst h1
          exact List.forall₂_same.mpr fun x _ => DefSim_refl var x
        | Unknown s n =>
          simp [processDefs] at h
          obtain ⟨h1, h2⟩ := h
          subst h1
          exact List.forall₂_same.mpr fun x _ => DefSim_refl var x
        | Subpiece x y a =>
          simp [processDefs] at h
          obtain ⟨h1, h2⟩ := h
          subst h1
          exact List.forall₂_same.mpr fun x _ => DefSim_refl var x
      · rcases hr : processDefs sp al rest jsp logs with _ | ⟨rest2, logs3⟩
        · simp [processDefs, hv, hr] at h
        · simp [processDefs, hv, hr] at h
          obtain ⟨h1, h2⟩ := h
          subst h1
          exact List.Forall₂.cons (DefSim_refl sp _) (ih jsp logs rest2 logs3 hr)

/-- Setting one related element preserves pointwise relatedness with a
reflexive relation. -/
theorem forall2_set {α : Type} {R : α → α → Prop} (hrefl : ∀ a, R a a) :
    ∀ (l : List α) (i : Nat) (x : α), (∀ y, l[i]? = some y → R y x) →
      List.Forall₂ R l (l.set i x) := by
  intro l
  induction l with
  | nil => intro i x _; exact List.Forall₂.nil
  | cons a as ih =>
    intro i x hy
    cases i with
    | zero =>
      rw [List.set_cons_zero]
      exact List.Forall₂.cons (hy a (by simp)) (List.forall₂_same.mpr fun y _ => hrefl y)
    | succ i =>
      rw [List.set_cons_succ]
      exact List.Forall₂.cons (hrefl a) (ih i x (fun y hy2 => hy y (by simpa using hy2)))

/-- A member of the right list of a `Forall₂` has a related member on the
left. -/
theorem forall2_mem_right {α β : Type} {R : α → β → Prop} :
    ∀ {l : List α} {l2 : List β}, List.Forall₂ R l l2 →
      ∀ {b : β}, b ∈ l2 → ∃ a, a ∈ l ∧ R a b := by
  intro l l2 h
  induction h with
  | nil => intro b hb; simp at hb
  | cons hr hf ih =>
    intro b hb
    rcases List.mem_cons.mp hb with hb | hb
    · subst hb
      exact ⟨_, List.mem_cons_self _ _, hr⟩
    · obtain ⟨a, ha, har⟩ := ih hb
      exact ⟨a, List.mem_cons_of_mem _ ha, har⟩

/-- Function `processSub` relates its input and output subroutine by `SubSim`. -/
theorem processSub_sim (sp : Variable) (al : Int) (logs : List LogMessage)
    (f f2 : Term Sub) (logs2 : List LogMessage)
    (h : processSub sp al logs f = some (f2, logs2)) : SubSim sp f f2 := by
  unfold processSub at h
  split at h
  · obtain ⟨h1, h2⟩ := by simpa using h
    subst h1
    exact SubSim_refl sp f
  next index hg =>
    split at h
    · exact Option.noConfusion h
    next blk hblk =>
      split at h
      · exact Option.noConfusion h
      next defs2 logs3 hp =>
        obtain ⟨h1, h2⟩ := by simpa using h
        subst h1
        refine ⟨rfl, rfl, ?_⟩
        refine forall2_set (BlkSim_refl sp) f.term.blocks index _ ?_
        intro y hy
        rw [hblk] at hy
        injection hy with hy
        subst hy
        exact ⟨rfl, rfl, processDefs_sim sp al blk.term.defs 0 logs defs2 logs3 hp⟩

/-- Function `processSubs` relates its input and output subroutine lists pointwise
by `SubSim`. -/
theorem processSubs_sim (sp : Variable) (al : Int) :
    ∀ (subs : List (Term Sub)) (logs : List LogMessage)
      (subs2 : List (Term Sub)) (logs2 : List LogMessage),
      processSubs sp al subs logs = some (subs2, logs2) →
      List.Forall₂ (SubSim sp) subs subs2 := by
  intro subs
  induction subs with
  | nil =>
    intro logs subs2 logs2 h
    simp [processSubs] at h
    obtain ⟨h1, h2⟩ := h
    subst h1
    exact List.Forall₂.nil
  | cons f rest ih =>
    intro logs subs2 logs2 h
    rcases hp : processSub sp al logs f with _ | ⟨f2, logsf⟩
    · simp [processSubs, hp] at h
    · rcases hr : processSubs sp al rest logsf with _ | ⟨rest2, logs3⟩
      · simp [processSubs, hp, hr] at h
      · simp [processSubs, hp, hr] at h
        obtain ⟨h1, h2⟩ := h
        subst h1
        exact List.Forall₂.cons (processSub_sim sp al logs f f2 logsf hp)
          (ih logsf rest2 logs3 hr)

/-! ## Claim theorems -/

/-- C1: the claim states that diagnostics emitted while processing earlier
subroutines never cause the processing of a later subroutine to abort, so that
running the pass on `[A, B]` rewrites `B` exactly as running it on `[B]`
alone. The code violates this: the abort check after a substitution scans
the whole global log list, so the "Unsubstitutable" diagnostic from `A`
aborts the processing of `B` right after its first rewritten def. On
`progAB`, subroutine `B` keeps its second alignment idiom unrewritten,
while on `progB` both idioms are rewritten. -/
theorem C1_cross_subroutine_abort_eval :
    substitute_and_on_stackpointer progAB rsp "x86_64" =
      some (progABR, [mkInfo "Unsubstitutable Operation on SP" ⟨"a1", "UNKNOWN"⟩]) ∧
    substitute_and_on_stackpointer progB rsp "x86_64" = some (progBR, []) ∧
    subBPartial ≠ subBFull := by
  refine ⟨by decide, by decide, by decide⟩

/-- C2 (counterexample): the claim states that the pass is total and never
raises a process-level error, in particular not when a constant operand of
an `IntAdd`/`IntSub`/`IntAnd` on the stack pointer does not fit in a
signed 64-bit integer. On `panicProg`, whose only def adds the 128-bit
constant `2 ^ 100` to the stack pointer, the `unwrap()` of `try_to_i64`
in `journal_sp_value` panics, modelled by the `none` result. -/
theorem C2_panic_counterexample :
    substitute_and_on_stackpointer panicProg rsp "x86_64" = none := by decide

/-- C2 (amended): the pass terminates normally and returns its log list
provided every constant occurring in the defs of the program fits in a signed
64-bit integer (byte width at most 8); without that proviso the
`unwrap()` calls on `try_to_i64` can panic. -/
theorem C2_totality_when_constants_fit (p : Program) (sp : Variable)
    (arch : String) (h : p.constsFit = true) :
    (substitute_and_on_stackpointer p sp arch).isSome = true := by
  unfold substitute_and_on_stackpointer
  obtain ⟨⟨subs2, logs⟩, hp⟩ := Option.isSome_iff_exists.mp
    (processSubs_isSome sp (sp_alignment arch) p.subs [] h)
  rw [hp]
  rfl

/-- Witness for C2 (amended) at the concrete program `alignProg`. -/
theorem C2_totality_witness :
    (substitute_and_on_stackpointer alignProg rsp "x86_64").isSome = true :=
  C2_totality_when_constants_fit alignProg rsp "x86_64" (by decide)

/-- C3 (counterexample): the claim states that an `IntAnd` whose operands
are a non-stack-pointer variable paired with a constant yields an
"unsubstitutable" diagnostic and aborts the subroutine. On `mixProg`,
whose only def is `RSP := RAX AND -16` with `RAX` distinct from the stack
pointer `RSP`, the pass instead performs the rewrite and emits no
diagnostic at all. -/
theorem C3_nonsp_variable_counterexample :
    substitute_and_on_stackpointer mixProg rsp "x86_64" = some (mixProgR, []) ∧
    mixProgR ≠ mixProg := by
  refine ⟨by decide, by decide⟩

/-- C3 (amended): the substitution step rewrites an expression exactly when
it is an `IntAnd` whose operands are some variable (not necessarily the
stack pointer) and a constant, in either order; a non-`IntAnd` operation
on a variable-constant pair, a binary operation on any other operand
shape, and a non-binary expression each emit an "unsubstitutable"
diagnostic and leave the expression unchanged, and an "unsubstitutable"
diagnostic emitted by the substitution step makes the rest of the current
defs of the current subroutine be left untouched (abort). -/
theorem C3_substitution_shape_amended :
    (∀ (x : Variable) (c : Bitvector) (al jsp : Int) (tid : Tid),
      c.size ≤ 8 →
      ∃ (o : Bitvector) (msgs : List LogMessage),
        substitute (Expression.BinOp BinOpType.IntAnd (Expression.Var x)
          (Expression.Const c)) al jsp tid =
          some (Expression.BinOp BinOpType.IntSub (Expression.Var x)
            (Expression.Const o), msgs) ∧
        substitute (Expression.BinOp BinOpType.IntAnd (Expression.Const c)
          (Expression.Var x)) al jsp tid =
          some (Expression.BinOp BinOpType.IntSub (Expression.Var x)
            (Expression.Const o), msgs) ∧
        ∀ m ∈ msgs, hasSubstring unsubstitutableText m.text = false) ∧
    (∀ (op : BinOpType) (x : Variable) (c : Bitvector) (al jsp : Int) (tid : Tid),
      op ≠ BinOpType.IntAnd →
      substitute (Expression.BinOp op (Expression.Var x) (Expression.Const c))
          al jsp tid =
        some (Expression.BinOp op (Expression.Var x) (Expression.Const c),
          [mkInfo "Unsubstitutable Operation on SP" tid]) ∧
      substitute (Expression.BinOp op (Expression.Const c) (Expression.Var x))
          al jsp tid =
        some (Expression.BinOp op (Expression.Const c) (Expression.Var x),
          [mkInfo "Unsubstitutable Operation on SP" tid])) ∧
    (∀ (op : BinOpType) (a b : Expression) (al jsp : Int) (tid : Tid),
      (∀ x c, ¬(a = Expression.Var x ∧ b = Expression.Const c) ∧
        ¬(a = Expression.Const c ∧ b = Expression.Var x)) →
      substitute (Expression.BinOp op a b) al jsp tid =
        some (Expression.BinOp op a b,
          [mkInfo
            "Unsubstitutable Operation on SP. Operants are not register and constant."
            tid])) ∧
    (∀ (e : Expression) (al jsp : Int) (tid : Tid),
      (∀ op a b, e ≠ Expression.BinOp op a b) →
      substitute e al jsp tid =
        some (e, [mkInfo "Unsubstitutable Operation on SP" tid])) ∧
    (∀ (sp : Variable) (al : Int) (tid : Tid) (op : BinOpType)
        (a b : Expression) (rest : List (Term Def)) (jsp : Int)
        (logs : List LogMessage) (value2 : Expression) (msg : List LogMessage),
      op ≠ BinOpType.IntAdd → op ≠ BinOpType.IntSub →
      substitute (Expression.BinOp op a b) al jsp tid = some (value2, msg) →
      (∃ m ∈ msg, hasSubstring unsubstitutableText m.text = true) →
      processDefs sp al (⟨tid, Def.Assign sp (Expression.BinOp op a b)⟩ :: rest)
          jsp logs =
        some (⟨tid, Def.Assign sp value2⟩ :: rest, logs ++ msg)) := by
  refine ⟨?_, ?_, ?_, ?_, ?_⟩
  · intro x c al jsp tid hsz
    have hneg : (Bitvector.into_negate c).size ≤ 8 := hsz
    refine ⟨(Bitvector.from_i64 (jsp - i64And jsp c.to_int)).into_resize_unsigned c.size,
      if (Bitvector.into_negate c).to_int ≠ al then
        [mkInfo "Unexpected alignment" tid] else [], ?_, ?_, ?_⟩
    · simp [substitute, substitute.substituteMatched, try_to_i64_of_size_le hsz,
        try_to_i64_of_size_le hneg]
    · simp [substitute, substitute.substituteMatched, try_to_i64_of_size_le hsz,
        try_to_i64_of_size_le hneg]
    · intro m hm
      split at hm
      · simp at hm
        subst hm
        show hasSubstring unsubstitutableText "Unexpected alignment" = false
        decide
      · simp at hm
  · intro op x c al jsp tid hop
    cases op <;> simp_all [substitute, substitute.substituteMatched]
  · intro op a b al jsp tid h
    cases a <;> cases b <;>
      first
        | exact absurd ⟨rfl, rfl⟩ (h _ _).1
        | exact absurd ⟨rfl, rfl⟩ (h _ _).2
        | simp [substitute]
  · intro e al jsp tid h
    cases e <;> first
      | exact absurd rfl (h _ _ _)
      | simp [substitute]
  · intro sp al tid op a b rest jsp logs value2 msg h1 h2 hsub hmsg
    have hany : (logs ++ msg).any
        (fun m => hasSubstring unsubstitutableText m.text) = true := by
      rcases hmsg with ⟨m, hm, hms⟩
      rw [List.any_append, Bool.or_eq_true]
      exact Or.inr (List.any_eq_true.mpr ⟨m, hm, hms⟩)
    cases op <;> simp_all [processDefs]

/-- Witness for C3 (amended): the matched shape with the non-stack-pointer
variable `RAX` is rewritten without an unsubstitutable diagnostic. -/
theorem C3_substitution_shape_witness :
    ∃ (o : Bitvector) (msgs : List LogMessage),
      substitute (Expression.BinOp BinOpType.IntAnd (Expression.Var rax)
        (Expression.Const mask16)) 16 0 ⟨"w3", "UNKNOWN"⟩ =
        some (Expression.BinOp BinOpType.IntSub (Expression.Var rax)
          (Expression.Const o), msgs) ∧
      substitute (Expression.BinOp BinOpType.IntAnd (Expression.Const mask16)
        (Expression.Var rax)) 16 0 ⟨"w3", "UNKNOWN"⟩ =
        some (Expression.BinOp BinOpType.IntSub (Expression.Var rax)
          (Expression.Const o), msgs) ∧
      ∀ m ∈ msgs, hasSubstring unsubstitutableText m.text = false :=
  C3_substitution_shape_amended.1 rax mask16 16 0 ⟨"w3", "UNKNOWN"⟩ (by decide)

/-- C4: journaling starts at 0; an `IntAdd` of the stack pointer and a
constant, in either operand order, adds the constant to the journaled
value, and an `IntSub` in either order subtracts it; the offset used in a
rewrite is `journaled_sp - (journaled_sp AND bitmask)` in signed 64-bit
arithmetic; on the example block of the spec
`[sp := sp + 8; sp := sp - 4; sp := sp AND -16]` the journaled value
before the `IntAnd` is 4 and the instruction is rewritten to
`sp := sp - 4`. -/
theorem C4_journaling_arithmetic :
    (∀ (jsp : Int) (sp : Variable) (c : Bitvector),
      c.size ≤ 8 → -(2 ^ 63) ≤ jsp + c.to_int → jsp + c.to_int < 2 ^ 63 →
      journal_sp_value jsp true (Expression.Var sp) (Expression.Const c) sp =
        some (some (jsp + c.to_int)) ∧
      journal_sp_value jsp true (Expression.Const c) (Expression.Var sp) sp =
        some (some (jsp + c.to_int))) ∧
    (∀ (jsp : Int) (sp : Variable) (c : Bitvector),
      c.size ≤ 8 → -(2 ^ 63) ≤ jsp - c.to_int → jsp - c.to_int < 2 ^ 63 →
      journal_sp_value jsp false (Expression.Var sp) (Expression.Const c) sp =
        some (some (jsp - c.to_int)) ∧
      journal_sp_value jsp false (Expression.Const c) (Expression.Var sp) sp =
        some (some (jsp - c.to_int))) ∧
    (∀ (v : Variable) (c : Bitvector) (al jsp : Int) (tid : Tid)
        (e2 : Expression) (msg : List LogMessage) (m : Int),
      c.try_to_i64 = some m →
      substitute (Expression.BinOp BinOpType.IntAnd (Expression.Var v)
        (Expression.Const c)) al jsp tid = some (e2, msg) →
      e2 = Expression.BinOp BinOpType.IntSub (Expression.Var v)
        (Expression.Const
          ((Bitvector.from_i64 (jsp - i64And jsp m)).into_resize_unsigned c.size))) ∧
    (journal_sp_value 0 true (Expression.Var rsp) (Expression.Const ⟨8, 8⟩) rsp =
        some (some 8) ∧
      journal_sp_value 8 false (Expression.Var rsp) (Expression.Const ⟨8, 4⟩) rsp =
        some (some 4)) ∧
    substitute_and_on_stackpointer alignProg rsp "x86_64" = some (alignProgR, []) := by
  refine ⟨?_, ?_, ?_, ⟨by decide, by decide⟩, by decide⟩
  · intro jsp sp c hsz h1 h2
    constructor <;>
      simp [journal_sp_value, journal_sp_value.journalMatched,
        try_to_i64_of_size_le hsz, wrap64_eq_self h1 h2]
  · intro jsp sp c hsz h1 h2
    constructor <;>
      simp [journal_sp_value, journal_sp_value.journalMatched,
        try_to_i64_of_size_le hsz, wrap64_eq_self h1 h2]
  · intro v c al jsp tid e2 msg m hc hsub
    cases hn : (Bitvector.into_negate c).try_to_i64 with
    | none => simp [substitute, substitute.substituteMatched, hn] at hsub
    | some negated =>
      simp [substitute, substitute.substituteMatched, hn, hc] at hsub
      rw [← hsub.1]

/-- Witness for C4 at the concrete journaling steps of the example block. -/
theorem C4_journaling_witness :
    (journal_sp_value 0 true (Expression.Var rsp)
        (Expression.Const ⟨8, 8⟩) rsp = some (some (0 + Bitvector.to_int ⟨8, 8⟩)) ∧
      journal_sp_value 0 true (Expression.Const ⟨8, 8⟩)
        (Expression.Var rsp) rsp = some (some (0 + Bitvector.to_int ⟨8, 8⟩))) ∧
    (journal_sp_value 8 false (Expression.Var rsp)
        (Expression.Const ⟨8, 4⟩) rsp = some (some (8 - Bitvector.to_int ⟨8, 4⟩)) ∧
      journal_sp_value 8 false (Expression.Const ⟨8, 4⟩)
        (Expression.Var rsp) rsp = some (some (8 - Bitvector.to_int ⟨8, 4⟩))) :=
  ⟨C4_journaling_arithmetic.1 0 rsp ⟨8, 8⟩ (by decide) (by decide) (by decide),
    C4_journaling_arithmetic.2.1 8 rsp ⟨8, 4⟩ (by decide) (by decide) (by decide)⟩

/-- C5: a first block with at least one def is used directly; the cyclic,
missing-target and no-unconditional-branch subroutines are all skipped; a
skipped subroutine contributes zero rewrites and zero diagnostics; and in
`isoProg` the cyclic subroutine is skipped while the well-formed
subroutine `B` in the same program is still fully normalized. -/
theorem C5_entry_block_location :
    (∀ (sub : Sub) (b : Term Blk) (rest : List (Term Blk)),
      sub.blocks = b :: rest → b.term.defs ≠ [] →
      get_first_blk_with_defs sub = some 0) ∧
    get_first_blk_with_defs cycSub.term = none ∧
    get_first_blk_with_defs lostSub.term = none ∧
    get_first_blk_with_defs noBranchSub.term = none ∧
    (∀ (sp : Variable) (al : Int) (logs : List LogMessage) (f : Term Sub),
      get_first_blk_with_defs f.term = none →
      processSub sp al logs f = some (f, logs)) ∧
    substitute_and_on_stackpointer isoProg rsp "x86_64" = some (isoProgR, []) := by
  refine ⟨?_, by decide, by decide, by decide, ?_, by decide⟩
  · intro sub b rest hb hdefs
    cases hd : b.term.defs with
    | nil => exact absurd hd hdefs
    | cons d ds => simp [get_first_blk_with_defs, hb, search_loop, hd]
  · intro sp al logs f h
    simp [processSub, h]

/-- Witness for C5 at a concrete one-block subroutine and the concrete
cyclic subroutine. -/
theorem C5_entry_block_witness :
    get_first_blk_with_defs
      ⟨"w5", [⟨⟨"wblk", "UNKNOWN"⟩, ⟨[alignDef1], []⟩⟩]⟩ = some 0 ∧
    processSub rsp 16 [] cycSub = some (cycSub, []) :=
  ⟨C5_entry_block_location.1 _ _ _ rfl (by decide),
    C5_entry_block_location.2.2.2.2.1 rsp 16 [] cycSub (by decide)⟩

/-- C6: the per-architecture alignment expectation is 16 for x86_32 and
x86_64, 4 for arm32 and 0 otherwise; on a matched `IntAnd` the rewrite is
performed for every expected alignment, and a mismatch of the negated
bitmask with the expectation only adds the informational "Unexpected
alignment" diagnostic; in particular the unrecognized architecture
"mips32" does not suppress the rewrite on the example program. -/
theorem C6_alignment_diagnostic_nonfatal :
    (sp_alignment "x86_32" = 16 ∧ sp_alignment "x86_64" = 16 ∧
      sp_alignment "arm32" = 4) ∧
    (∀ s : String, s ≠ "x86_32" → s ≠ "x86_64" → s ≠ "arm32" →
      sp_alignment s = 0) ∧
    (∀ (v : Variable) (c : Bitvector) (al jsp : Int) (tid : Tid),
      c.size ≤ 8 →
      substitute (Expression.BinOp BinOpType.IntAnd (Expression.Var v)
        (Expression.Const c)) al jsp tid =
      some (Expression.BinOp BinOpType.IntSub (Expression.Var v)
        (Expression.Const
          ((Bitvector.from_i64 (jsp - i64And jsp c.to_int)).into_resize_unsigned c.size)),
        if (Bitvector.into_negate c).to_int ≠ al then
          [mkInfo "Unexpected alignment" tid]
        else [])) ∧
    substitute_and_on_stackpointer alignProg rsp "mips32" =
      some (alignProgR, [mkInfo "Unexpected alignment" ⟨"d3", "UNKNOWN"⟩]) := by
  refine ⟨⟨rfl, rfl, rfl⟩, ?_, ?_, by decide⟩
  · intro s h1 h2 h3
    unfold sp_alignment
    split <;> simp_all
  · intro v c al jsp tid hsz
    have hneg : (Bitvector.into_negate c).size ≤ 8 := hsz
    simp [substitute, substitute.substituteMatched, try_to_i64_of_size_le hsz,
      try_to_i64_of_size_le hneg]

/-- Witness for C6: the fallback alignment of "mips32" is 0, and the
rewrite on a matched `IntAnd` still happens at expected alignment 0. -/
theorem C6_alignment_witness :
    sp_alignment "mips32" = 0 ∧
    substitute (Expression.BinOp BinOpType.IntAnd (Expression.Var rsp)
      (Expression.Const mask16)) 0 0 ⟨"w6", "UNKNOWN"⟩ =
      some (Expression.BinOp BinOpType.IntSub (Expression.Var rsp)
        (Expression.Const
          ((Bitvector.from_i64 (0 - i64And 0 mask16.to_int)).into_resize_unsigned
            mask16.size)),
        if (Bitvector.into_negate mask16).to_int ≠ 0 then
          [mkInfo "Unexpected alignment" ⟨"w6", "UNKNOWN"⟩]
        else []) :=
  ⟨C6_alignment_diagnostic_nonfatal.2.1 "mips32" (by decide) (by decide) (by decide),
    C6_alignment_diagnostic_nonfatal.2.2.1 rsp mask16 0 0 ⟨"w6", "UNKNOWN"⟩ (by decide)⟩

/-- C7: function `check_for_zero_extension` returns some `Tid` only for the own
`Tid` of the term, and it returns it exactly when the def is an `Assign` of an
`IntZExt` cast of a bare variable read whose assigned variable is named
`output_name` and whose source variable is named `output_sub_register`. -/
theorem C7_zero_extension_characterization (d : Term Def)
    (output_name output_sub_register : String) :
    (∀ t, Term.check_for_zero_extension d output_name output_sub_register = some t →
      t = d.tid) ∧
    (Term.check_for_zero_extension d output_name output_sub_register = some d.tid ↔
      ∃ var cs v,
        d.term = Def.Assign var (Expression.Cast CastOpType.IntZExt cs (Expression.Var v)) ∧
        var.name = output_name ∧ v.name = output_sub_register) := by
  obtain ⟨tid, td⟩ := d
  simp only [Term.check_for_zero_extension]
  cases td with
  | Load v a => simp
  | Store a b => simp
  | Assign var value =>
    cases value with
    | Var v => simp
    | Const c => simp
    | BinOp op a b => simp
    | UnOp op a => simp
    | Unknown s n => simp
    | Subpiece x y a => simp
    | Cast op cs arg =>
      cases op with
      | IntSExt => simp
      | Trunc => simp
      | IntZExt =>
        cases arg with
        | Var v =>
          by_cases h1 : output_name = var.name
          · by_cases h2 : v.name = output_sub_register
            · simp [h1, h2]
              exact ⟨var, cs, v, ⟨rfl, rfl, rfl⟩, rfl, h2⟩
            · simp [h1, h2]
          · simp [h1]
            intro a b
            exact h1 a.symm
        | Const c => simp
        | BinOp op a b => simp
        | UnOp op a => simp
        | Cast op2 n a => simp
        | Unknown s n => simp
        | Subpiece x y a => simp

/-- Witness for C7: the `RAX := ZExt(EAX)` example of the spec is detected. -/
theorem C7_zero_extension_witness :
    Term.check_for_zero_extension zxDef "RAX" "EAX" = some zxDef.tid :=
  (C7_zero_extension_characterization zxDef "RAX" "EAX").2.mpr
    ⟨⟨"RAX", 8⟩, 8, ⟨"EAX", 4⟩, rfl, rfl, rfl⟩

/-- C8: `referenced_constants` returns the constants of the single
expression for `Load` and `Assign`; for `Store` it concatenates the
constants of the address expression with those of the value expression,
returns the one non-`none` side when only one side has constants, and
returns `none` (not an empty sequence) exactly when both sides are
`none`. -/
theorem C8_referenced_constants_spec :
    (∀ (v : Variable) (a : Expression),
      (Def.Load v a).referenced_constants = a.referenced_constants) ∧
    (∀ (v : Variable) (a : Expression),
      (Def.Assign v a).referenced_constants = a.referenced_constants) ∧
    (∀ (a b : Expression) (ca cb : List Bitvector),
      a.referenced_constants = some ca → b.referenced_constants = some cb →
      (Def.Store a b).referenced_constants = some (ca ++ cb)) ∧
    (∀ (a b : Expression), a.referenced_constants = none →
      (Def.Store a b).referenced_constants = b.referenced_constants) ∧
    (∀ (a b : Expression), b.referenced_constants = none →
      (Def.Store a b).referenced_constants = a.referenced_constants) ∧
    (∀ (a b : Expression),
      (Def.Store a b).referenced_constants = none ↔
        a.referenced_constants = none ∧ b.referenced_constants = none) := by
  refine ⟨fun v a => rfl, fun v a => rfl, ?_, ?_, ?_, ?_⟩
  · intro a b ca cb ha hb
    simp [Def.referenced_constants, ha, hb]
  · intro a b ha
    cases hb : b.referenced_constants <;> simp [Def.referenced_constants, ha, hb]
  · intro a b hb
    cases ha : a.referenced_constants <;> simp [Def.referenced_constants, ha, hb]
  · intro a b
    cases ha : a.referenced_constants <;> cases hb : b.referenced_constants <;>
      simp [Def.referenced_constants, ha, hb]

/-- Witness for C8: a `Store` with constants on both sides concatenates
them, address side first. -/
theorem C8_referenced_constants_witness :
    (Def.Store (Expression.Const mask16)
      (Expression.Const ⟨8, 4⟩)).referenced_constants = some [mask16, ⟨8, 4⟩] :=
  C8_referenced_constants_spec.2.2.1 (Expression.Const mask16)
    (Expression.Const ⟨8, 4⟩) [mask16] [⟨8, 4⟩] rfl rfl

/-- C9: a successful run of the pass preserves the extern symbols and
entry points, relates the input and output subroutine lists pointwise by
`SubSim` (same `Tid`s, same names, same block `Tid`s, identical jump
lists, and defs changed at most by replacing the value of an `Assign` to
the stack-pointer register with an `IntSub` of a variable and a
constant), and therefore preserves the block shape invariant on every
block. -/
theorem C9_structural_preservation (p : Program) (sp : Variable) (arch : String)
    (p2 : Program) (logs : List LogMessage)
    (h : substitute_and_on_stackpointer p sp arch = some (p2, logs)) :
    p2.extern_symbols = p.extern_symbols ∧ p2.entry_points = p.entry_points ∧
    List.Forall₂ (SubSim sp) p.subs p2.subs ∧
    ((∀ s ∈ p.subs, ∀ b ∈ s.term.blocks, BlkShape b.term) →
      ∀ s2 ∈ p2.subs, ∀ b2 ∈ s2.term.blocks, BlkShape b2.term) := by
  unfold substitute_and_on_stackpointer at h
  split at h
  · exact Option.noConfusion h
  next subs2 logs0 hp =>
    obtain ⟨h1, h2⟩ := by simpa using h
    subst h1
    subst h2
    have hsim := processSubs_sim sp (sp_alignment arch) p.subs [] subs2 logs0 hp
    refine ⟨rfl, rfl, hsim, ?_⟩
    intro hshape s2 hs2 b2 hb2
    obtain ⟨s, hs, hss⟩ := forall2_mem_right hsim hs2
    obtain ⟨b, hb, hbs⟩ := forall2_mem_right hss.2.2 hb2
    have hsh := hshape s hs b hb
    unfold BlkShape at hsh ⊢
    rw [hbs.2.1]
    exact hsh

/-- Witness for C9 at the concrete run of the pass on `alignProg`. -/
theorem C9_structural_witness :
    List.Forall₂ (SubSim rsp) alignProg.subs alignProgR.subs :=
  (C9_structural_preservation alignProg rsp "x86_64" alignProgR []
    (by decide)).2.2.1

/-- C10: a successful substitution always yields an expression with the
variable operand on the left and the offset constant on the right, even
when the original was constant-first, and the byte width of the offset
constant equals the byte width of the original bitmask constant. -/
theorem C10_rewrite_operand_order (v : Variable) (c : Bitvector) (al jsp : Int)
    (tid : Tid) (e2 : Expression) (msg : List LogMessage)
    (h : substitute (Expression.BinOp BinOpType.IntAnd (Expression.Var v)
          (Expression.Const c)) al jsp tid = some (e2, msg) ∨
        substitute (Expression.BinOp BinOpType.IntAnd (Expression.Const c)
          (Expression.Var v)) al jsp tid = some (e2, msg)) :
    ∃ o : Bitvector,
      e2 = Expression.BinOp BinOpType.IntSub (Expression.Var v) (Expression.Const o) ∧
      o.size = c.size := by
  have hM : ∀ (orig : Expression) (e2m : Expression × List LogMessage),
      substitute.substituteMatched BinOpType.IntAnd v c orig al jsp tid = some e2m →
      ∃ o : Bitvector,
        e2m.1 = Expression.BinOp BinOpType.IntSub (Expression.Var v) (Expression.Const o) ∧
        o.size = c.size := by
    intro orig e2m hm
    cases hn : (Bitvector.into_negate c).try_to_i64 with
    | none => simp [substitute.substituteMatched, hn] at hm
    | some negated =>
      cases hc : Bitvector.try_to_i64 c with
      | none => simp [substitute.substituteMatched, hn, hc] at hm
      | some m =>
        simp [substitute.substituteMatched, hn, hc] at hm
        refine ⟨(Bitvector.from_i64 (jsp - i64And jsp m)).into_resize_unsigned c.size,
          ?_, rfl⟩
        rw [← hm]
  rcases h with h | h
  · exact hM (Expression.BinOp BinOpType.IntAnd (Expression.Var v) (Expression.Const c))
      (e2, msg) h
  · exact hM (Expression.BinOp BinOpType.IntAnd (Expression.Const c) (Expression.Var v))
      (e2, msg) h

/-- Witness for C10 at a constant-first concrete substitution. -/
theorem C10_rewrite_witness :
    ∃ o : Bitvector,
      Expression.BinOp BinOpType.IntSub (Expression.Var rsp)
        (Expression.Const ⟨8, 0⟩) =
        Expression.BinOp BinOpType.IntSub (Expression.Var rsp) (Expression.Const o) ∧
      o.size = mask16.size :=
  C10_rewrite_operand_order rsp mask16 16 0 ⟨"w10", "UNKNOWN"⟩
    (Expression.BinOp BinOpType.IntSub (Expression.Var rsp) (Expression.Const ⟨8, 0⟩))
    [] (Or.inr (by decide))

end IR
